import Mathlib

/-
Verification development for the Chemical module (Substance / Mixture / Stream).
The Python source is embedded shallowly: numbers are rationals (the one
real-exponent operation, viscosity mixing, lives in ℝ), the `None` sentinel is
`Option`, and a raised Python exception is an `Except` error value.  The
mutually recursive fraction properties take a fuel parameter; exhausting any
amount of fuel models the unbounded mutual recursion of the source.
-/

namespace Chemical

/-- Python runtime errors that the embedded code can raise. -/
inductive PyErr where
  | typeError
  | zeroDivisionError
  | indexError
  | recursionError
  deriving DecidableEq, Repr

abbrev PyResult (α : Type) := Except PyErr α

instance {α : Type} [DecidableEq α] : DecidableEq (PyResult α) := fun a b =>
  match a, b with
  | .error e, .error e' =>
      if h : e = e' then .isTrue (by rw [h]) else .isFalse (by simp [h])
  | .error _, .ok _ => .isFalse (by simp)
  | .ok _, .error _ => .isFalse (by simp)
  | .ok x, .ok y =>
      if h : x = y then .isTrue (by rw [h]) else .isFalse (by simp [h])

/-- Python division of two numbers: division by zero raises. -/
def pyDivQ (a b : ℚ) : PyResult ℚ :=
  if b = 0 then .error .zeroDivisionError else .ok (a / b)

/-- Indexing `l[i]` on a Python list: out of range raises IndexError. -/
def pyIdx (l : List ℚ) (i : Nat) : PyResult ℚ :=
  match l[i]? with
  | some x => .ok x
  | none => .error .indexError

/-- Multiply a number by a possibly-`None` value (`x * mm`); `None` raises. -/
def pyMulOpt (x : ℚ) (mm : Option ℚ) : PyResult ℚ :=
  match mm with
  | none => .error .typeError
  | some v => .ok (x * v)

/-- Divide a number by a possibly-`None` value (`x / mm`). -/
def pyDivOpt (x : ℚ) (mm : Option ℚ) : PyResult ℚ :=
  match mm with
  | none => .error .typeError
  | some v => if v = 0 then .error .zeroDivisionError else .ok (x / v)

/-- The gas constant 8.314 used by the ideal-gas branches. -/
def Rgas : ℚ := 8.314

/-- Substance: pure-component property holder (src/Chemical.py lines 8-29). -/
structure Substance where
  Name : String
  Temperature : ℚ := 298.15
  Pressure : ℚ := 101325
  MolarMass : Option ℚ := none
  Density0 : Option ℚ := none
  Viscosity0 : Option ℚ := none
  SpecificHeat0 : Option ℚ := none
  Diffusivity0 : Option ℚ := none
  deriving DecidableEq, Repr

/-- Substance.Density(T): returns the stored reference value; T is ignored. -/
def Substance.Density (s : Substance) (_T : ℚ) : Option ℚ := s.Density0

/-- Substance.Viscosity(T): returns the stored reference value; T is ignored. -/
def Substance.Viscosity (s : Substance) (_T : ℚ) : Option ℚ := s.Viscosity0

/-- Substance.SpecificHeat(T): returns the stored reference value; T ignored. -/
def Substance.SpecificHeat (s : Substance) (_T : ℚ) : Option ℚ := s.SpecificHeat0

/-- Mixture state (src/Chemical.py lines 32-44). -/
structure Mixture where
  Components : List Substance
  ComponentNames : List String
  wi : Option (List ℚ) := none
  zi : Option (List ℚ) := none
  V : Option ℚ := none
  M : Option ℚ := none
  N : Option ℚ := none
  Temperature : ℚ := 298.15
  Pressure : ℚ := 101325
  deriving DecidableEq, Repr

/-- Mixture.__init__: ComponentNames is computed from the component list. -/
def mkMixture (components : List Substance) : Mixture :=
  { Components := components
    ComponentNames := components.map (fun c => c.Name) }

/-- Insertion of one key/value pair into an assoc list with dict semantics:
an existing key keeps its position but gets the new value, a new key is
appended at the end. -/
def odInsert (l : List (String × Option ℚ)) (p : String × Option ℚ) :
    List (String × Option ℚ) :=
  if l.any (fun q => q.1 = p.1) then
    l.map (fun q => if q.1 = p.1 then (q.1, p.2) else q)
  else l ++ [p]

/-- OrderedDict(zip(keys, values)) as an assoc list built by insertion. -/
def odFromZip (l : List (String × Option ℚ)) : List (String × Option ℚ) :=
  l.foldl odInsert []

/-- Mixture.MolarMasses: OrderedDict(zip(ComponentNames, [c.MolarMass])). -/
def Mixture.MolarMasses (m : Mixture) : List (String × Option ℚ) :=
  odFromZip (List.zip m.ComponentNames (m.Components.map (fun c => c.MolarMass)))

/-- The `.values()` view of Mixture.MolarMasses. -/
def Mixture.MolarMassValues (m : Mixture) : List (Option ℚ) :=
  m.MolarMasses.map Prod.snd

/-- The den-accumulation loop of MassFractions: den += MolarFractions[j] * MMj. -/
def sumMulLoop (z : List ℚ) : List (Option ℚ) → Nat → ℚ → PyResult ℚ
  | [], _, acc => .ok acc
  | mm :: rest, j, acc =>
    match pyIdx z j with
    | .error e => .error e
    | .ok zj =>
      match pyMulOpt zj mm with
      | .error e => .error e
      | .ok t => sumMulLoop z rest (j + 1) (acc + t)

/-- The den-accumulation loop of MolarFractions: den += MassFractions[j] / MMj. -/
def sumDivLoop (w : List ℚ) : List (Option ℚ) → Nat → ℚ → PyResult ℚ
  | [], _, acc => .ok acc
  | mm :: rest, j, acc =>
    match pyIdx w j with
    | .error e => .error e
    | .ok wj =>
      match pyDivOpt wj mm with
      | .error e => .error e
      | .ok t => sumDivLoop w rest (j + 1) (acc + t)

/-- Outer loop of MassFractions' derived branch: per index i it computes
num = MolarFractions[i] * MMi, recomputes den over all j, and appends num/den. -/
def massFracLoop (z : List ℚ) (mms : List (Option ℚ)) :
    List (Option ℚ) → Nat → PyResult (List ℚ)
  | [], _ => .ok []
  | mm :: rest, i =>
    match pyIdx z i with
    | .error e => .error e
    | .ok zi' =>
      match pyMulOpt zi' mm with
      | .error e => .error e
      | .ok num =>
        match sumMulLoop z mms 0 0 with
        | .error e => .error e
        | .ok den =>
          match pyDivQ num den with
          | .error e => .error e
          | .ok x =>
            match massFracLoop z mms rest (i + 1) with
            | .error e => .error e
            | .ok xs => .ok (x :: xs)

/-- Outer loop of MolarFractions' derived branch: num = MassFractions[i] / MMi,
den summed over all j, element num/den. -/
def molarFracLoop (w : List ℚ) (mms : List (Option ℚ)) :
    List (Option ℚ) → Nat → PyResult (List ℚ)
  | [], _ => .ok []
  | mm :: rest, i =>
    match pyIdx w i with
    | .error e => .error e
    | .ok wi' =>
      match pyDivOpt wi' mm with
      | .error e => .error e
      | .ok num =>
        match sumDivLoop w mms 0 0 with
        | .error e => .error e
        | .ok den =>
          match pyDivQ num den with
          | .error e => .error e
          | .ok x =>
            match molarFracLoop w mms rest (i + 1) with
            | .error e => .error e
            | .ok xs => .ok (x :: xs)

mutual

/-- Mixture.MassFractions (src lines 60-72).  When wi is unset the loop body
reads the MolarFractions property, hence the fuel: with both wi and zi unset
the two properties call each other without a base case. -/
def Mixture.MassFractions : Nat → Mixture → PyResult (List ℚ)
  | 0, _ => .error .recursionError
  | fuel + 1, m =>
    match m.wi with
    | some w => .ok w
    | none =>
      match m.MolarMassValues with
      | [] => .ok []
      | mms =>
        match Mixture.MolarFractions fuel m with
        | .error e => .error e
        | .ok z => massFracLoop z mms mms 0

/-- Mixture.MolarFractions (src lines 74-86), the symmetric derived branch. -/
def Mixture.MolarFractions : Nat → Mixture → PyResult (List ℚ)
  | 0, _ => .error .recursionError
  | fuel + 1, m =>
    match m.zi with
    | some z => .ok z
    | none =>
      match m.MolarMassValues with
      | [] => .ok []
      | mms =>
        match Mixture.MassFractions fuel m with
        | .error e => .error e
        | .ok w => molarFracLoop w mms mms 0

end

/-- Mixture.MolarMass (src lines 46-51).  The loop is
`for i, MMi in enumerate(self.MolarMasses)`: iterating the OrderedDict itself
yields its KEYS, the component name strings, so MMi is a str and the update
`MM += self.MolarFractions[i] * MMi` multiplies a number by a string, which
raises TypeError.  With no components the loop body never runs and 0 is
returned. -/
def Mixture.MolarMass (fuel : Nat) (m : Mixture) : PyResult ℚ :=
  match m.MolarMasses with
  | [] => .ok 0
  | _ :: _ =>
    match Mixture.MolarFractions fuel m with
    | .error e => .error e
    | .ok z =>
      match z[0]? with
      | none => .error .indexError
      | some _ => .error .typeError

/-- Mixture.Mass (src lines 88-97).  In the branch `M = self.V * self.Density`
the name `self.Density` is the UNCALLED bound method (Mixture.Density has no
property decorator), so the multiplication raises TypeError whatever self.V
holds. -/
def Mixture.Mass (fuel : Nat) (m : Mixture) : PyResult ℚ :=
  match m.M with
  | some v => .ok v
  | none =>
    match m.N with
    | none => .error .typeError
    | some n =>
      match Mixture.MolarMass fuel m with
      | .error e => .error e
      | .ok mm => .ok (n * mm)

/-- Mixture.Volume (src lines 99-109).  `V = self.M / self.Density` divides by
the uncalled bound method and raises TypeError; the ideal-gas branch computes
N * 8.314 * T / P. -/
def Mixture.Volume (m : Mixture) : PyResult ℚ :=
  match m.V with
  | some v => .ok v
  | none =>
    match m.N with
    | none => .error .typeError
    | some n => pyDivQ (n * Rgas * m.Temperature) m.Pressure

/-- Mixture.Moles (src lines 111-121).  `N = self.M / self.MolarMass` first
evaluates the MolarMass property (which may raise), then divides; if self.M is
None the division itself raises TypeError.  The ideal-gas branch computes
(P * V) / (8.314 * T). -/
def Mixture.Moles (fuel : Nat) (m : Mixture) : PyResult ℚ :=
  match m.N with
  | some n => .ok n
  | none =>
    match m.V with
    | some v => pyDivQ (m.Pressure * v) (Rgas * m.Temperature)
    | none =>
      match Mixture.MolarMass fuel m with
      | .error e => .error e
      | .ok mm =>
        match m.M with
        | none => .error .typeError
        | some mv => pyDivQ mv mm

/-- The accumulation loop of Mixture.Density:
rho += MassFractions[i] / c.Density(T). -/
def densityLoop (w : List ℚ) (T : ℚ) : List Substance → Nat → ℚ → PyResult ℚ
  | [], _, acc => .ok acc
  | c :: rest, i, acc =>
    match pyIdx w i with
    | .error e => .error e
    | .ok x =>
      match pyDivOpt x (c.Density T) with
      | .error e => .error e
      | .ok t => densityLoop w T rest (i + 1) (acc + t)

/-- Mixture.Density(T) (src lines 123-127): the harmonic-style mixing rule
1 / Σ(MassFractions[i] / c.Density(T)).  With no components rho stays 0 and
the final 1/rho raises ZeroDivisionError; the MassFractions property is read
only inside the loop body. -/
def Mixture.Density (fuel : Nat) (m : Mixture) (T : ℚ) : PyResult ℚ :=
  match m.Components with
  | [] => .error .zeroDivisionError
  | _ :: _ =>
    match Mixture.MassFractions fuel m with
    | .error e => .error e
    | .ok w =>
      match densityLoop w T m.Components 0 0 with
      | .error e => .error e
      | .ok rho => pyDivQ 1 rho

/-- The accumulation loop of Mixture.Viscosity:
mu = mu * c.Viscosity(T) ** MassFractions[i], a real-exponent power. -/
noncomputable def viscosityLoop (w : List ℚ) (T : ℚ) :
    List Substance → Nat → ℝ → PyResult ℝ
  | [], _, acc => .ok acc
  | c :: rest, i, acc =>
    match pyIdx w i with
    | .error e => .error e
    | .ok x =>
      match c.Viscosity T with
      | none => .error .typeError
      | some mu => viscosityLoop w T rest (i + 1) (acc * (mu : ℝ) ^ (x : ℝ))

/-- Mixture.Viscosity(T) (src lines 129-133): logarithmic mixing
Π(c.Viscosity(T) ** MassFractions[i]) starting from mu = 1.0. -/
noncomputable def Mixture.Viscosity (fuel : Nat) (m : Mixture) (T : ℚ) :
    PyResult ℝ :=
  match m.Components with
  | [] => .ok 1
  | _ :: _ =>
    match Mixture.MassFractions fuel m with
    | .error e => .error e
    | .ok w => viscosityLoop w T m.Components 0 1

/-- The accumulation loop of Mixture.SpecificHeat:
Cp += MassFractions[i] * c.SpecificHeat(T). -/
def specificHeatLoop (w : List ℚ) (T : ℚ) :
    List Substance → Nat → ℚ → PyResult ℚ
  | [], _, acc => .ok acc
  | c :: rest, i, acc =>
    match pyIdx w i with
    | .error e => .error e
    | .ok x =>
      match pyMulOpt x (c.SpecificHeat T) with
      | .error e => .error e
      | .ok t => specificHeatLoop w T rest (i + 1) (acc + t)

/-- Mixture.SpecificHeat(T) (src lines 135-139): linear mass-weighted sum
Σ(MassFractions[i] * c.SpecificHeat(T)). -/
def Mixture.SpecificHeat (fuel : Nat) (m : Mixture) (T : ℚ) : PyResult ℚ :=
  match m.Components with
  | [] => .ok 0
  | _ :: _ =>
    match Mixture.MassFractions fuel m with
    | .error e => .error e
    | .ok w => specificHeatLoop w T m.Components 0 0

/-- Stream state after construction (src lines 142-168): the intensive
properties are snapshot values, the flow basis and metadata start unset. -/
structure Stream where
  Components : List Substance
  ComponentNames : List String
  Temperature : ℚ
  Pressure : ℚ
  Density : ℚ
  Viscosity : ℝ
  SpecificHeat : ℚ
  MolarMass : ℚ
  MolarMasses : List (String × Option ℚ)
  MassFractions : List ℚ
  MolarFractions : List ℚ
  Tag : Option String := none
  From : Option String := none
  To : Option String := none
  Mf : Option ℚ := none
  Vf : Option ℚ := none
  Vfo : Option ℚ := none
  Nf : Option ℚ := none
  ParticleSize : Option ℚ := none
  ParticleCharge : Option ℚ := none

/-- Stream.VolumeFlow (src lines 180-188).  With Vf unset and Vfo set the
source returns NormalVolumeFlow * (Po/To) * (T/P), and NormalVolumeFlow with
Vfo set is just Vfo, inlined here.  With both unset it divides the RAW stored
field self.Mf by Density: if Mf is None that division raises TypeError. -/
def Stream.VolumeFlow (s : Stream) : PyResult ℚ :=
  match s.Vf with
  | some v => .ok v
  | none =>
    match s.Vfo with
    | some vfo =>
      match pyDivQ s.Temperature s.Pressure with
      | .error e => .error e
      | .ok tp => .ok (vfo * ((101325 : ℚ) / (273.15 : ℚ)) * tp)
    | none =>
      match s.Mf with
      | none => .error .typeError
      | some mf => pyDivQ mf s.Density

/-- Stream.NormalVolumeFlow (src lines 190-195):
VolumeFlow * (To/Po) * (P/T) unless Vfo is stored. -/
def Stream.NormalVolumeFlow (s : Stream) : PyResult ℚ :=
  match s.Vfo with
  | some v => .ok v
  | none =>
    match s.VolumeFlow with
    | .error e => .error e
    | .ok vf =>
      match pyDivQ s.Pressure s.Temperature with
      | .error e => .error e
      | .ok pt => .ok (vf * ((273.15 : ℚ) / (101325 : ℚ)) * pt)

/-- Stream.MassFlow (src lines 170-178): stored Mf wins, else Nf * MolarMass,
else VolumeFlow * Density. -/
def Stream.MassFlow (s : Stream) : PyResult ℚ :=
  match s.Mf with
  | some mf => .ok mf
  | none =>
    match s.Nf with
    | some nf => .ok (nf * s.MolarMass)
    | none =>
      match s.VolumeFlow with
      | .error e => .error e
      | .ok vf => .ok (vf * s.Density)

/-- Stream.MolarFlow (src lines 197-202): stored Nf wins, else
MassFlow / MolarMass. -/
def Stream.MolarFlow (s : Stream) : PyResult ℚ :=
  match s.Nf with
  | some nf => .ok nf
  | none =>
    match s.MassFlow with
    | .error e => .error e
    | .ok mf => pyDivQ mf s.MolarMass

/-- A Python list comprehension `[x * flow for x in fractions]` where `flow`
is a property read that may raise; an empty fraction list never reads it. -/
def compFlows (flow : PyResult ℚ) : List ℚ → PyResult (List ℚ)
  | [] => .ok []
  | x :: rest =>
    match flow with
    | .error e => .error e
    | .ok f =>
      match compFlows flow rest with
      | .error e => .error e
      | .ok l => .ok (x * f :: l)

/-- Stream.MassFlows (src lines 204-206): [wi * MassFlow for wi in MassFractions]. -/
def Stream.MassFlows (s : Stream) : PyResult (List ℚ) :=
  compFlows s.MassFlow s.MassFractions

/-- Stream.VolumeFlows (src lines 208-210): [zi * VolumeFlow for zi in MolarFractions]. -/
def Stream.VolumeFlows (s : Stream) : PyResult (List ℚ) :=
  compFlows s.VolumeFlow s.MolarFractions

/-- Stream.MolarFlows (src lines 212-214): [zi * MolarFlow for zi in MolarFractions]. -/
def Stream.MolarFlows (s : Stream) : PyResult (List ℚ) :=
  compFlows s.MolarFlow s.MolarFractions

/-- Stream.__init__ (src lines 143-168): evaluates the mixture's derived
properties eagerly, in source order, and stores the resulting values; any
exception raised by one of those property reads aborts construction. -/
noncomputable def mkStream (fuel : Nat) (m : Mixture) : PyResult Stream :=
  match Mixture.Density fuel m m.Temperature with
  | .error e => .error e
  | .ok rho =>
    match Mixture.Viscosity fuel m m.Temperature with
    | .error e => .error e
    | .ok mu =>
      match Mixture.SpecificHeat fuel m m.Temperature with
      | .error e => .error e
      | .ok cp =>
        match Mixture.MolarMass fuel m with
        | .error e => .error e
        | .ok mm =>
          match Mixture.MassFractions fuel m with
          | .error e => .error e
          | .ok w =>
            match Mixture.MolarFractions fuel m with
            | .error e => .error e
            | .ok z =>
              .ok { Components := m.Components
                    ComponentNames := m.ComponentNames
                    Temperature := m.Temperature
                    Pressure := m.Pressure
                    Density := rho
                    Viscosity := mu
                    SpecificHeat := cp
                    MolarMass := mm
                    MolarMasses := m.MolarMasses
                    MassFractions := w
                    MolarFractions := z }

/-- Example component: a water-like substance with all reference values set. -/
def water : Substance :=
  { Name := "water", MolarMass := some (9/500), Density0 := some 1000,
    Viscosity0 := some (1/1000), SpecificHeat0 := some 4186 }

/-- Example component: an ethanol-like substance with all reference values set. -/
def ethanol : Substance :=
  { Name := "ethanol", MolarMass := some (23/500), Density0 := some 789,
    Viscosity0 := some (3/2500), SpecificHeat0 := some 2440 }

/-- Example mixture with stored mass fractions. -/
def mixW : Mixture := { mkMixture [water, ethanol] with wi := some [1/2, 1/2] }

/-- Example mixture with stored mole fractions. -/
def mixZ : Mixture := { mkMixture [water, ethanol] with zi := some [1/2, 1/2] }

/-- Example mixture with neither fraction basis stored. -/
def mixU : Mixture := mkMixture [water, ethanol]

/-- Example single-component mixture with mass fraction 1 stored. -/
def mixOne : Mixture := { mkMixture [water] with wi := some [1] }

/-- Example stream state whose only stored flow-basis field is Mf. -/
def streamMf : Stream :=
  { Components := [water], ComponentNames := ["water"],
    Temperature := 298.15, Pressure := 101325, Density := 1000,
    Viscosity := 1, SpecificHeat := 4186, MolarMass := 1/50,
    MolarMasses := [("water", some (9/500))],
    MassFractions := [1], MolarFractions := [1], Mf := some 10 }

/-- Example stream state whose only stored flow-basis field is Nf. -/
def streamNf : Stream :=
  { streamMf with Mf := none, Nf := some 500 }

/-- Example stream state with no flow-basis field stored at all. -/
def streamUnset : Stream :=
  { streamMf with Mf := none }

/-- Example stream state with both Mf and Nf stored. -/
def streamBoth : Stream :=
  { streamMf with Nf := some 7 }

/-- Example two-component stream state with Mf and Vf stored. -/
def streamMfVf : Stream :=
  { Components := [water, ethanol], ComponentNames := ["water", "ethanol"],
    Temperature := 298.15, Pressure := 101325, Density := 900,
    Viscosity := 1, SpecificHeat := 4000, MolarMass := 1/40,
    MolarMasses := [("water", some (9/500)), ("ethanol", some (23/500))],
    MassFractions := [7/10, 3/10], MolarFractions := [4/5, 1/5],
    Mf := some 10, Vf := some (1/100) }

/-- Inserting a pair whose key is absent appends it at the end. -/
theorem odInsert_of_notMem (acc : List (String × Option ℚ)) (p : String × Option ℚ)
    (h : ∀ q ∈ acc, q.1 ≠ p.1) : odInsert acc p = acc ++ [p] := by
  have hc : ¬(acc.any (fun q => q.1 = p.1) = true) := by
    simp only [List.any_eq_true, decide_eq_true_eq, not_exists]
    intro q hq
    exact h q hq.1 hq.2
  simp [odInsert, hc]

/-- Folding dict insertion over pairs with fresh, pairwise distinct keys just
appends them. -/
theorem odFromZip_aux (l : List (String × Option ℚ)) :
    ∀ acc : List (String × Option ℚ),
      (l.map Prod.fst).Nodup →
      (∀ p ∈ l, ∀ q ∈ acc, q.1 ≠ p.1) →
      l.foldl odInsert acc = acc ++ l := by
  induction l with
  | nil => intro acc _ _; simp
  | cons p rest ih =>
    intro acc hnd hdisj
    have hndc : p.1 ∉ rest.map Prod.fst ∧ (rest.map Prod.fst).Nodup := by
      simpa using hnd
    have hdisj' : ∀ p' ∈ rest, ∀ q ∈ acc ++ [p], q.1 ≠ p'.1 := by
      intro p' hp' q hq
      rcases List.mem_append.1 hq with hq | hq
      · exact hdisj p' (List.mem_cons_of_mem _ hp') q hq
      · have hq' : q = p := by simpa using hq
        subst hq'
        intro hEq
        exact hndc.1 (hEq ▸ List.mem_map_of_mem Prod.fst hp')
    simp only [List.foldl_cons]
    rw [odInsert_of_notMem acc p (fun q hq => hdisj p (List.mem_cons_self p rest) q hq),
      ih (acc ++ [p]) hndc.2 hdisj']
    simp

/-- With pairwise distinct keys the dict keeps exactly the zipped pairs. -/
theorem odFromZip_of_nodup (l : List (String × Option ℚ))
    (hnd : (l.map Prod.fst).Nodup) : odFromZip l = l := by
  unfold odFromZip
  rw [odFromZip_aux l [] hnd (by intro p _ q hq; simp at hq)]
  simp

/-- Under the constructor invariant (names derived from components, no
duplicates) the values of MolarMasses are the components' molar masses in
order. -/
theorem molarMassValues_eq (m : Mixture)
    (hn : m.ComponentNames = m.Components.map (fun c => c.Name))
    (hnd : m.ComponentNames.Nodup) :
    m.MolarMassValues = m.Components.map (fun c => c.MolarMass) := by
  unfold Mixture.MolarMassValues Mixture.MolarMasses
  rw [hn, List.zip_map']
  rw [odFromZip_of_nodup]
  · simp
  · have : (m.Components.map fun c => (c.Name, c.MolarMass)).map Prod.fst =
        m.Components.map (fun c => c.Name) := by
      simp [List.map_map, Function.comp]
    rw [this, ← hn]
    exact hnd

/-- Evaluation of the MolarFractions denominator loop on a suffix of the
molar-mass list: it adds Σ MassFractions[j] / MMj over the remaining indices. -/
theorem sumDivLoop_eq (w mmv : List ℚ) (hlen : w.length = mmv.length)
    (hnz : ∀ b ∈ mmv, b ≠ 0) :
    ∀ (suf : List ℚ) (j : Nat) (acc : ℚ), mmv.drop j = suf →
      sumDivLoop w (suf.map some) j acc =
        .ok (acc +
          (List.zipWith (fun a b => a / b) (w.drop j) (mmv.drop j)).sum) := by
  intro suf
  induction suf with
  | nil =>
    intro j acc hdrop
    rw [hdrop]
    simp [sumDivLoop]
  | cons v rest ih =>
    intro j acc hdrop
    have hj : j < mmv.length := by
      by_contra hge
      rw [List.drop_eq_nil_of_le (Nat.le_of_not_lt hge)] at hdrop
      exact List.noConfusion hdrop
    have hjw : j < w.length := hlen ▸ hj
    have hcons : mmv.drop j = mmv[j] :: mmv.drop (j + 1) :=
      List.drop_eq_getElem_cons hj
    have hv : mmv[j] = v := by
      rw [hdrop] at hcons; exact (List.cons.inj hcons.symm).1
    have hrest : mmv.drop (j + 1) = rest := by
      rw [hdrop] at hcons; exact (List.cons.inj hcons.symm).2
    have hvnz : v ≠ 0 := hv ▸ hnz mmv[j] (List.getElem_mem hj)
    have hwcons : w.drop j = w[j] :: w.drop (j + 1) :=
      List.drop_eq_getElem_cons hjw
    simp only [List.map_cons, sumDivLoop, pyIdx,
      List.getElem?_eq_getElem hjw, pyDivOpt, if_neg hvnz]
    rw [ih (j + 1) (acc + w[j] / v) hrest, hwcons, hdrop, hrest,
      List.zipWith_cons_cons, List.sum_cons, ← add_assoc]

/-- Evaluation of the MassFractions denominator loop on a suffix of the
molar-mass list: it adds Σ MolarFractions[j] * MMj over the remaining indices. -/
theorem sumMulLoop_eq (z mmv : List ℚ) (hlen : z.length = mmv.length) :
    ∀ (suf : List ℚ) (j : Nat) (acc : ℚ), mmv.drop j = suf →
      sumMulLoop z (suf.map some) j acc =
        .ok (acc +
          (List.zipWith (fun a b => a * b) (z.drop j) (mmv.drop j)).sum) := by
  intro suf
  induction suf with
  | nil =>
    intro j acc hdrop
    rw [hdrop]
    simp [sumMulLoop]
  | cons v rest ih =>
    intro j acc hdrop
    have hj : j < mmv.length := by
      by_contra hge
      rw [List.drop_eq_nil_of_le (Nat.le_of_not_lt hge)] at hdrop
      exact List.noConfusion hdrop
    have hjz : j < z.length := hlen ▸ hj
    have hcons : mmv.drop j = mmv[j] :: mmv.drop (j + 1) :=
      List.drop_eq_getElem_cons hj
    have hv : mmv[j] = v := by
      rw [hdrop] at hcons; exact (List.cons.inj hcons.symm).1
    have hrest : mmv.drop (j + 1) = rest := by
      rw [hdrop] at hcons; exact (List.cons.inj hcons.symm).2
    have hzcons : z.drop j = z[j] :: z.drop (j + 1) :=
      List.drop_eq_getElem_cons hjz
    simp only [List.map_cons, sumMulLoop, pyIdx,
      List.getElem?_eq_getElem hjz, pyMulOpt]
    rw [ih (j + 1) (acc + z[j] * v) hrest, hzcons, hdrop, hrest,
      List.zipWith_cons_cons, List.sum_cons, ← add_assoc]

/-- Evaluation of the MolarFractions outer loop: starting at index j over the
suffix of the molar-mass list it returns the per-component normalized mole
ratios (MassFractions[i] / MMi) / Σ(MassFractions[j] / MMj). -/
theorem molarFracLoop_eq (w mmv : List ℚ) (hlen : w.length = mmv.length)
    (hnz : ∀ b ∈ mmv, b ≠ 0)
    (hS : (List.zipWith (fun a b => a / b) w mmv).sum ≠ 0) :
    ∀ (suf : List ℚ) (j : Nat), mmv.drop j = suf →
      molarFracLoop w (mmv.map some) (suf.map some) j =
        .ok (List.zipWith
          (fun a b => a / b / (List.zipWith (fun a b => a / b) w mmv).sum)
          (w.drop j) (mmv.drop j)) := by
  intro suf
  induction suf with
  | nil =>
    intro j hdrop
    rw [hdrop]
    simp [molarFracLoop]
  | cons v rest ih =>
    intro j hdrop
    have hj : j < mmv.length := by
      by_contra hge
      rw [List.drop_eq_nil_of_le (Nat.le_of_not_lt hge)] at hdrop
      exact List.noConfusion hdrop
    have hjw : j < w.length := hlen ▸ hj
    have hcons : mmv.drop j = mmv[j] :: mmv.drop (j + 1) :=
      List.drop_eq_getElem_cons hj
    have hv : mmv[j] = v := by
      rw [hdrop] at hcons; exact (List.cons.inj hcons.symm).1
    have hrest : mmv.drop (j + 1) = rest := by
      rw [hdrop] at hcons; exact (List.cons.inj hcons.symm).2
    have hvnz : v ≠ 0 := hv ▸ hnz mmv[j] (List.getElem_mem hj)
    have hwcons : w.drop j = w[j] :: w.drop (j + 1) :=
      List.drop_eq_getElem_cons hjw
    have hden := sumDivLoop_eq w mmv hlen hnz mmv 0 0 (by simp)
    rw [List.drop_zero, List.drop_zero, zero_add] at hden
    simp only [List.map_cons, molarFracLoop, pyIdx,
      List.getElem?_eq_getElem hjw, pyDivOpt, if_neg hvnz, hden, pyDivQ,
      if_neg hS]
    rw [ih (j + 1) hrest, hwcons, hdrop, hrest, List.zipWith_cons_cons]

/-- Evaluation of the MassFractions outer loop: starting at index j over the
suffix of the molar-mass list it returns the per-component values
(MolarFractions[i] * MMi) / Σ(MolarFractions[j] * MMj). -/
theorem massFracLoop_eq (z mmv : List ℚ) (hlen : z.length = mmv.length)
    (hT : (List.zipWith (fun a b => a * b) z mmv).sum ≠ 0) :
    ∀ (suf : List ℚ) (j : Nat), mmv.drop j = suf →
      massFracLoop z (mmv.map some) (suf.map some) j =
        .ok (List.zipWith
          (fun a b => a * b / (List.zipWith (fun a b => a * b) z mmv).sum)
          (z.drop j) (mmv.drop j)) := by
  intro suf
  induction suf with
  | nil =>
    intro j hdrop
    rw [hdrop]
    simp [massFracLoop]
  | cons v rest ih =>
    intro j hdrop
    have hj : j < mmv.length := by
      by_contra hge
      rw [List.drop_eq_nil_of_le (Nat.le_of_not_lt hge)] at hdrop
      exact List.noConfusion hdrop
    have hjz : j < z.length := hlen ▸ hj
    have hcons : mmv.drop j = mmv[j] :: mmv.drop (j + 1) :=
      List.drop_eq_getElem_cons hj
    have hv : mmv[j] = v := by
      rw [hdrop] at hcons; exact (List.cons.inj hcons.symm).1
    have hrest : mmv.drop (j + 1) = rest := by
      rw [hdrop] at hcons; exact (List.cons.inj hcons.symm).2
    have hzcons : z.drop j = z[j] :: z.drop (j + 1) :=
      List.drop_eq_getElem_cons hjz
    have hden := sumMulLoop_eq z mmv hlen mmv 0 0 (by simp)
    rw [List.drop_zero, List.drop_zero, zero_add] at hden
    simp only [List.map_cons, massFracLoop, pyIdx,
      List.getElem?_eq_getElem hjz, pyMulOpt, hden, pyDivQ, if_neg hT]
    rw [ih (j + 1) hrest, hzcons, hdrop, hrest, List.zipWith_cons_cons]

/-- A stored mass-fraction list is returned as is (any positive fuel). -/
theorem massFractions_stored (fuel : Nat) (m : Mixture) (w : List ℚ)
    (hw : m.wi = some w) : Mixture.MassFractions (fuel + 1) m = .ok w := by
  simp [Mixture.MassFractions, hw]

/-- A stored mole-fraction list is returned as is (any positive fuel). -/
theorem molarFractions_stored (fuel : Nat) (m : Mixture) (z : List ℚ)
    (hz : m.zi = some z) : Mixture.MolarFractions (fuel + 1) m = .ok z := by
  simp [Mixture.MolarFractions, hz]

/-- With mass fractions stored and molar masses available, MolarFractions
computes the normalized mole ratios (wi / MMi) / Σ(wj / MMj). -/
theorem molarFractions_of_wi (f : Nat) (m : Mixture) (w mmv : List ℚ)
    (hw : m.wi = some w) (hz : m.zi = none)
    (hn : m.ComponentNames = m.Components.map (fun c => c.Name))
    (hnd : m.ComponentNames.Nodup)
    (hmm : m.Components.map (fun c => c.MolarMass) = mmv.map some)
    (hlen : w.length = mmv.length)
    (hnz : ∀ b ∈ mmv, b ≠ 0)
    (hS : (List.zipWith (fun a b => a / b) w mmv).sum ≠ 0) :
    Mixture.MolarFractions (f + 2) m =
      .ok (List.zipWith
        (fun a b => a / b / (List.zipWith (fun a b => a / b) w mmv).sum)
        w mmv) := by
  have hvals : m.MolarMassValues = mmv.map some := by
    rw [molarMassValues_eq m hn hnd, hmm]
  have hmass := massFractions_stored f m w hw
  have hloop := molarFracLoop_eq w mmv hlen hnz hS mmv 0 (by simp)
  rw [List.drop_zero, List.drop_zero] at hloop
  show Mixture.MolarFractions (f + 1 + 1) m = _
  rw [Mixture.MolarFractions]
  rw [hz, hvals]
  cases mmv with
  | nil => simp
  | cons v rest => rw [hmass, ← hvals]; rw [hvals]; exact hloop

/-- With mole fractions stored and molar masses available, MassFractions
computes the per-component values (zi * MMi) / Σ(zj * MMj). -/
theorem massFractions_of_zi (f : Nat) (m : Mixture) (z mmv : List ℚ)
    (hz : m.zi = some z) (hw : m.wi = none)
    (hn : m.ComponentNames = m.Components.map (fun c => c.Name))
    (hnd : m.ComponentNames.Nodup)
    (hmm : m.Components.map (fun c => c.MolarMass) = mmv.map some)
    (hlen : z.length = mmv.length)
    (hT : (List.zipWith (fun a b => a * b) z mmv).sum ≠ 0) :
    Mixture.MassFractions (f + 2) m =
      .ok (List.zipWith
        (fun a b => a * b / (List.zipWith (fun a b => a * b) z mmv).sum)
        z mmv) := by
  have hvals : m.MolarMassValues = mmv.map some := by
    rw [molarMassValues_eq m hn hnd, hmm]
  have hmolar := molarFractions_stored f m z hz
  have hloop := massFracLoop_eq z mmv hlen hT mmv 0 (by simp)
  rw [List.drop_zero, List.drop_zero] at hloop
  show Mixture.MassFractions (f + 1 + 1) m = _
  rw [Mixture.MassFractions]
  rw [hw, hvals]
  cases mmv with
  | nil => simp
  | cons v rest => rw [hmolar]; exact hloop

/-- The sum Σ wi / MMi is nonnegative for nonnegative fractions and positive
molar masses. -/
theorem zipWith_div_sum_nonneg : ∀ (w mmv : List ℚ),
    (∀ a ∈ w, 0 ≤ a) → (∀ b ∈ mmv, 0 < b) →
    0 ≤ (List.zipWith (fun a b => a / b) w mmv).sum
  | [], _, _, _ => by simp
  | _ :: _, [], _, _ => by simp
  | a :: w', b :: mmv', hw, hmm => by
    rw [List.zipWith_cons_cons, List.sum_cons]
    have h1 : 0 ≤ a / b :=
      div_nonneg (hw a (by simp)) (le_of_lt (hmm b (by simp)))
    have h2 := zipWith_div_sum_nonneg w' mmv'
      (fun x hx => hw x (by simp [hx])) (fun y hy => hmm y (by simp [hy]))
    linarith

/-- The sum Σ wi / MMi is positive when the fractions are nonnegative with a
positive total and the molar masses are positive. -/
theorem zipWith_div_sum_pos : ∀ (w mmv : List ℚ),
    w.length = mmv.length →
    (∀ a ∈ w, 0 ≤ a) → (∀ b ∈ mmv, 0 < b) → 0 < w.sum →
    0 < (List.zipWith (fun a b => a / b) w mmv).sum
  | [], [], _, _, _, hs => by simp at hs
  | [], _ :: _, hlen, _, _, _ => by simp at hlen
  | _ :: _, [], hlen, _, _, _ => by simp at hlen
  | a :: w', b :: mmv', hlen, hw, hmm, hs => by
    rw [List.zipWith_cons_cons, List.sum_cons]
    rcases lt_or_eq_of_le (hw a (by simp)) with ha | ha
    · have h1 : 0 < a / b := div_pos ha (hmm b (by simp))
      have h2 := zipWith_div_sum_nonneg w' mmv'
        (fun x hx => hw x (by simp [hx])) (fun y hy => hmm y (by simp [hy]))
      linarith
    · have hs' : 0 < w'.sum := by
        rw [List.sum_cons, ← ha, zero_add] at hs
        exact hs
      have h2 := zipWith_div_sum_pos w' mmv' (by simpa using hlen)
        (fun x hx => hw x (by simp [hx])) (fun y hy => hmm y (by simp [hy])) hs'
      have h1 : 0 ≤ a / b :=
        div_nonneg (hw a (by simp)) (le_of_lt (hmm b (by simp)))
      linarith

/-- The sum Σ zi * MMi is nonnegative for nonnegative fractions and positive
molar masses. -/
theorem zipWith_mul_sum_nonneg : ∀ (z mmv : List ℚ),
    (∀ a ∈ z, 0 ≤ a) → (∀ b ∈ mmv, 0 < b) →
    0 ≤ (List.zipWith (fun a b => a * b) z mmv).sum
  | [], _, _, _ => by simp
  | _ :: _, [], _, _ => by simp
  | a :: z', b :: mmv', hz, hmm => by
    rw [List.zipWith_cons_cons, List.sum_cons]
    have h1 : 0 ≤ a * b :=
      mul_nonneg (hz a (by simp)) (le_of_lt (hmm b (by simp)))
    have h2 := zipWith_mul_sum_nonneg z' mmv'
      (fun x hx => hz x (by simp [hx])) (fun y hy => hmm y (by simp [hy]))
    linarith

/-- The sum Σ zi * MMi is positive when the fractions are nonnegative with a
positive total and the molar masses are positive. -/
theorem zipWith_mul_sum_pos : ∀ (z mmv : List ℚ),
    z.length = mmv.length →
    (∀ a ∈ z, 0 ≤ a) → (∀ b ∈ mmv, 0 < b) → 0 < z.sum →
    0 < (List.zipWith (fun a b => a * b) z mmv).sum
  | [], [], _, _, _, hs => by simp at hs
  | [], _ :: _, hlen, _, _, _ => by simp at hlen
  | _ :: _, [], hlen, _, _, _ => by simp at hlen
  | a :: z', b :: mmv', hlen, hz, hmm, hs => by
    rw [List.zipWith_cons_cons, List.sum_cons]
    rcases lt_or_eq_of_le (hz a (by simp)) with ha | ha
    · have h1 : 0 < a * b := mul_pos ha (hmm b (by simp))
      have h2 := zipWith_mul_sum_nonneg z' mmv'
        (fun x hx => hz x (by simp [hx])) (fun y hy => hmm y (by simp [hy]))
      linarith
    · have hs' : 0 < z'.sum := by
        rw [List.sum_cons, ← ha, zero_add] at hs
        exact hs
      have h2 := zipWith_mul_sum_pos z' mmv' (by simpa using hlen)
        (fun x hx => hz x (by simp [hx])) (fun y hy => hmm y (by simp [hy])) hs'
      have h1 : 0 ≤ a * b :=
        mul_nonneg (hz a (by simp)) (le_of_lt (hmm b (by simp)))
      linarith

/-- C4: with a stored mass-fraction list wi (zi unset), MolarFractions returns
(wi / MMi) / Σ(wj / MMj) per component; symmetrically, with zi stored (wi
unset), MassFractions returns (zi * MMi) / Σ(zj * MMj) per component. -/
theorem C4_fraction_conversion
    (f g : Nat) (m m' : Mixture) (w z mmv mmv2 : List ℚ)
    (hw : m.wi = some w) (hz : m.zi = none)
    (hn : m.ComponentNames = m.Components.map (fun c => c.Name))
    (hnd : m.ComponentNames.Nodup)
    (hmm : m.Components.map (fun c => c.MolarMass) = mmv.map some)
    (hlen : w.length = mmv.length)
    (hwnn : ∀ a ∈ w, 0 ≤ a) (hwsum : w.sum = 1)
    (hmmpos : ∀ b ∈ mmv, 0 < b)
    (hz2 : m'.zi = some z) (hw2 : m'.wi = none)
    (hn2 : m'.ComponentNames = m'.Components.map (fun c => c.Name))
    (hnd2 : m'.ComponentNames.Nodup)
    (hmm2 : m'.Components.map (fun c => c.MolarMass) = mmv2.map some)
    (hlen2 : z.length = mmv2.length)
    (hznn : ∀ a ∈ z, 0 ≤ a) (hzsum : z.sum = 1)
    (hmmpos2 : ∀ b ∈ mmv2, 0 < b) :
    Mixture.MolarFractions (f + 2) m =
      .ok (List.zipWith
        (fun a b => a / b / (List.zipWith (fun a b => a / b) w mmv).sum)
        w mmv) ∧
    Mixture.MassFractions (g + 2) m' =
      .ok (List.zipWith
        (fun a b => a * b / (List.zipWith (fun a b => a * b) z mmv2).sum)
        z mmv2) := by
  have hS : (List.zipWith (fun a b => a / b) w mmv).sum ≠ 0 :=
    ne_of_gt (zipWith_div_sum_pos w mmv hlen hwnn hmmpos (by rw [hwsum]; norm_num))
  have hT : (List.zipWith (fun a b => a * b) z mmv2).sum ≠ 0 :=
    ne_of_gt (zipWith_mul_sum_pos z mmv2 hlen2 hznn hmmpos2 (by rw [hzsum]; norm_num))
  have hnz : ∀ b ∈ mmv, b ≠ 0 := fun b hb => ne_of_gt (hmmpos b hb)
  exact ⟨molarFractions_of_wi f m w mmv hw hz hn hnd hmm hlen hnz hS,
    massFractions_of_zi g m' z mmv2 hz2 hw2 hn2 hnd2 hmm2 hlen2 hT⟩

/-- Witness for C4 on concrete two-component mixtures. -/
theorem C4_fraction_conversion_witness :
    mixW.wi = some [1/2, 1/2] ∧ mixZ.zi = some [1/2, 1/2] ∧
    (Mixture.MolarFractions 2 mixW =
      .ok (List.zipWith
        (fun a b => a / b /
          (List.zipWith (fun a b => a / b) [1/2, 1/2] [9/500, 23/500]).sum)
        [1/2, 1/2] [9/500, 23/500]) ∧
    Mixture.MassFractions 2 mixZ =
      .ok (List.zipWith
        (fun a b => a * b /
          (List.zipWith (fun a b => a * b) [1/2, 1/2] [9/500, 23/500]).sum)
        [1/2, 1/2] [9/500, 23/500])) :=
  ⟨rfl, rfl,
    C4_fraction_conversion 0 0 mixW mixZ [1/2, 1/2] [1/2, 1/2]
      [9/500, 23/500] [9/500, 23/500]
      rfl rfl rfl (by decide) rfl rfl (by norm_num) (by norm_num) (by norm_num)
      rfl rfl rfl (by decide) rfl rfl (by norm_num) (by norm_num) (by norm_num)⟩

/-- Dividing every element by a constant divides the sum. -/
theorem sum_map_div : ∀ (l : List ℚ) (S : ℚ),
    (l.map (fun a => a / S)).sum = l.sum / S
  | [], S => by simp
  | a :: l', S => by
    rw [List.map_cons, List.sum_cons, List.sum_cons, sum_map_div l' S, add_div]

/-- Multiplying the normalized mole ratios back by the molar masses yields the
mass fractions scaled by 1/S. -/
theorem zipWith_mul_of_div : ∀ (w mmv : List ℚ) (S : ℚ),
    w.length = mmv.length → (∀ b ∈ mmv, b ≠ 0) →
    List.zipWith (fun a b => a * b)
      (List.zipWith (fun a b => a / b / S) w mmv) mmv =
      w.map (fun a => a / S)
  | [], [], _, _, _ => by simp
  | [], _ :: _, _, hlen, _ => by simp at hlen
  | _ :: _, [], _, hlen, _ => by simp at hlen
  | a :: w', b :: mmv', S, hlen, hnz => by
    rw [List.zipWith_cons_cons, List.zipWith_cons_cons, List.map_cons,
      zipWith_mul_of_div w' mmv' S (by simpa using hlen)
        (fun y hy => hnz y (by simp [hy]))]
    have hb : b ≠ 0 := hnz b (by simp)
    have hpt : a / b / S * b = a / S := by
      rcases eq_or_ne S 0 with hS | hS
      · simp [hS]
      · field_simp
        ring
    rw [hpt]

/-- Round-trip of the two conversion formulas: applying the mass-fraction
formula to the mole fractions produced by the mole-fraction formula returns
the original mass-fraction list. -/
theorem roundtrip_zip : ∀ (w mmv : List ℚ) (S T : ℚ),
    w.length = mmv.length → (∀ b ∈ mmv, b ≠ 0) → S ≠ 0 → T = 1 / S →
    List.zipWith (fun a b => a * b / T)
      (List.zipWith (fun a b => a / b / S) w mmv) mmv = w
  | [], [], _, _, _, _, _, _ => by simp
  | [], _ :: _, _, _, hlen, _, _, _ => by simp at hlen
  | _ :: _, [], _, _, hlen, _, _, _ => by simp at hlen
  | a :: w', b :: mmv', S, T, hlen, hnz, hS, hT => by
    rw [List.zipWith_cons_cons, List.zipWith_cons_cons,
      roundtrip_zip w' mmv' S T (by simpa using hlen)
        (fun y hy => hnz y (by simp [hy])) hS hT]
    have hb : b ≠ 0 := hnz b (by simp)
    have hpt : a / b / S * b = a / S := by
      rcases eq_or_ne S 0 with hS0 | hS0
      · simp [hS0]
      · field_simp
        ring
    rw [hpt, hT, div_div, mul_one_div_cancel hS, div_one]

/-- C5: for a mixture with stored mass fractions summing to 1 and positive
molar masses, deriving the mole fractions and then re-deriving mass fractions
from a mixture holding exactly those mole fractions reproduces the original
mass-fraction list exactly (rational arithmetic). -/
theorem C5_roundtrip (f g : Nat) (m : Mixture) (w mmv : List ℚ)
    (hw : m.wi = some w) (hz : m.zi = none)
    (hn : m.ComponentNames = m.Components.map (fun c => c.Name))
    (hnd : m.ComponentNames.Nodup)
    (hmm : m.Components.map (fun c => c.MolarMass) = mmv.map some)
    (hlen : w.length = mmv.length)
    (hwnn : ∀ a ∈ w, 0 ≤ a) (hwsum : w.sum = 1)
    (hmmpos : ∀ b ∈ mmv, 0 < b) :
    ∃ z : List ℚ,
      Mixture.MolarFractions (f + 2) m = .ok z ∧
      Mixture.MassFractions (g + 2) { m with wi := none, zi := some z } =
        .ok w := by
  have hSpos := zipWith_div_sum_pos w mmv hlen hwnn hmmpos
    (by rw [hwsum]; norm_num)
  set S := (List.zipWith (fun a b => a / b) w mmv).sum with hSdef
  have hS : S ≠ 0 := ne_of_gt hSpos
  have hnz : ∀ b ∈ mmv, b ≠ 0 := fun b hb => ne_of_gt (hmmpos b hb)
  refine ⟨List.zipWith (fun a b => a / b / S) w mmv, ?_, ?_⟩
  · exact molarFractions_of_wi f m w mmv hw hz hn hnd hmm hlen hnz hS
  · set z := List.zipWith (fun a b => a / b / S) w mmv with hzdef
    have hlenz : z.length = mmv.length := by
      rw [hzdef, List.length_zipWith, hlen, min_self]
    have hTsum : (List.zipWith (fun a b => a * b) z mmv).sum = 1 / S := by
      rw [hzdef, zipWith_mul_of_div w mmv S hlen hnz, sum_map_div, hwsum]
    have hT : (List.zipWith (fun a b => a * b) z mmv).sum ≠ 0 := by
      rw [hTsum]
      exact one_div_ne_zero hS
    have h := massFractions_of_zi g { m with wi := none, zi := some z } z mmv
      rfl rfl hn hnd hmm hlenz hT
    rw [h, hTsum, hzdef, roundtrip_zip w mmv S (1 / S) hlen hnz hS rfl]

/-- Witness for C5 on a concrete two-component mixture. -/
theorem C5_roundtrip_witness :
    mixW.wi = some [1/2, 1/2] ∧
    (∃ z : List ℚ,
      Mixture.MolarFractions 2 mixW = .ok z ∧
      Mixture.MassFractions 2 { mixW with wi := none, zi := some z } =
        .ok [1/2, 1/2]) :=
  ⟨rfl,
    C5_roundtrip 0 0 mixW [1/2, 1/2] [9/500, 23/500]
      rfl rfl rfl (by decide) rfl rfl (by norm_num) (by norm_num) (by norm_num)⟩

/-- With both fraction bases unset and at least one component, neither
fraction accessor terminates with a value: every recursion depth ends in the
recursion error, the fuel-model image of the source's unbounded mutual
recursion. -/
theorem fractions_diverge (m : Mixture) (hw : m.wi = none) (hz : m.zi = none)
    (hne : m.MolarMassValues ≠ []) :
    ∀ fuel, Mixture.MassFractions fuel m = .error .recursionError ∧
      Mixture.MolarFractions fuel m = .error .recursionError := by
  intro fuel
  induction fuel with
  | zero => exact ⟨rfl, rfl⟩
  | succ f ih =>
    cases hvals : m.MolarMassValues with
    | nil => exact absurd hvals hne
    | cons a rest =>
      constructor
      · rw [Mixture.MassFractions, hw, hvals, ih.2]
      · rw [Mixture.MolarFractions, hz, hvals, ih.1]

/-- The molar masses of the example mixtures, computed once. -/
theorem mixU_molarMassValues :
    mixU.MolarMassValues = [some (9/500), some (23/500)] := rfl

/-- The MolarMasses assoc list of mixZ, computed once. -/
theorem mixZ_molarMasses :
    mixZ.MolarMasses = [("water", some (9/500)), ("ethanol", some (23/500))] :=
  rfl

/-- C1 (code bug): with wi and zi both unset, MassFractions and MolarFractions
never produce a value at any depth (unbounded mutual recursion, RecursionError
in Python) instead of raising UnderspecifiedComposition; with M, V, N all
unset, Mass and Volume raise TypeError and Moles dies in the fraction
recursion instead of raising UnderspecifiedQuantity; with Mf, Nf, Vf, Vfo all
unset, every Stream flow accessor raises TypeError (None / Density) instead of
UnderspecifiedFlow. -/
theorem C1_unset_basis_no_clean_error :
    (∀ fuel, Mixture.MassFractions fuel mixU = .error .recursionError) ∧
    (∀ fuel, Mixture.MolarFractions fuel mixU = .error .recursionError) ∧
    (∀ fuel, Mixture.Mass fuel mixU = .error .typeError) ∧
    Mixture.Volume mixU = .error .typeError ∧
    (∀ fuel, Mixture.Moles fuel mixU = .error .recursionError) ∧
    Stream.MassFlow streamUnset = .error .typeError ∧
    Stream.VolumeFlow streamUnset = .error .typeError ∧
    Stream.MolarFlow streamUnset = .error .typeError ∧
    Stream.NormalVolumeFlow streamUnset = .error .typeError := by
  have hdiv := fractions_diverge mixU rfl rfl
    (by rw [mixU_molarMassValues]; simp)
  have hmm : ∀ fuel, Mixture.MolarMass fuel mixU = .error .recursionError := by
    intro fuel
    have hstep : Mixture.MolarMass fuel mixU =
        match Mixture.MolarFractions fuel mixU with
        | .error e => .error e
        | .ok z =>
          match z[0]? with
          | none => .error .indexError
          | some _ => .error .typeError := rfl
    rw [hstep, (hdiv fuel).2]
  refine ⟨fun fuel => (hdiv fuel).1, fun fuel => (hdiv fuel).2,
    fun fuel => rfl, rfl, ?_, rfl, rfl, rfl, rfl⟩
  intro fuel
  have hstep : Mixture.Moles fuel mixU =
      match Mixture.MolarMass fuel mixU with
      | .error e => .error e
      | .ok mm =>
        match mixU.M with
        | none => .error .typeError
        | some mv => pyDivQ mv mm := rfl
  rw [hstep, hmm fuel]

/-- C2 (code bug): Mixture.MolarMass iterates the OrderedDict itself, so the
loop variable is the component NAME string and the update multiplies a
fraction by a str; on the example mixture with stored mole fractions it raises
TypeError at every positive recursion depth instead of returning the
mole-fraction-weighted average molar mass. -/
theorem C2_molarmass_types_error :
    ∀ fuel, Mixture.MolarMass (fuel + 1) mixZ = .error .typeError := by
  intro fuel
  have hstep : Mixture.MolarMass (fuel + 1) mixZ =
      match Mixture.MolarFractions (fuel + 1) mixZ with
      | .error e => .error e
      | .ok z =>
        match z[0]? with
        | none => .error .indexError
        | some _ => .error .typeError := rfl
  rw [hstep, molarFractions_stored fuel mixZ [1/2, 1/2] rfl]
  rfl

/-- C3 (code bug): of the claimed Mass/Volume/Moles precedence chain only the
stored-value and ideal-gas branches work.  The V×Density and M÷Density
branches multiply/divide by the uncalled bound method `self.Density` and raise
TypeError, and the N×MolarMass and M÷MolarMass branches raise TypeError
through the broken MolarMass property. -/
theorem C3_quantity_triad_partial :
    (∀ fuel, Mixture.Mass fuel { mixZ with V := some 1 } = .error .typeError) ∧
    Mixture.Volume { mixZ with M := some 1 } = .error .typeError ∧
    (∀ fuel, Mixture.Mass (fuel + 1) { mixZ with N := some 2 } =
      .error .typeError) ∧
    (∀ fuel, Mixture.Moles (fuel + 1) { mixZ with M := some 1 } =
      .error .typeError) ∧
    (∀ fuel, Mixture.Mass fuel { mixZ with M := some 5 } = .ok 5) ∧
    Mixture.Volume { mixZ with N := some 2 } =
      .ok (2 * Rgas * 298.15 / 101325) ∧
    (∀ fuel, Mixture.Moles fuel { mixZ with V := some 1 } =
      .ok (101325 * 1 / (Rgas * 298.15))) := by
  have hmmN : ∀ fuel, Mixture.MolarMass (fuel + 1) { mixZ with N := some 2 } =
      .error .typeError := by
    intro fuel
    have hstep : Mixture.MolarMass (fuel + 1) { mixZ with N := some 2 } =
        match Mixture.MolarFractions (fuel + 1) { mixZ with N := some 2 } with
        | .error e => .error e
        | .ok z =>
          match z[0]? with
          | none => .error .indexError
          | some _ => .error .typeError := rfl
    rw [hstep,
      molarFractions_stored fuel { mixZ with N := some 2 } [1/2, 1/2] rfl]
    rfl
  have hmmM : ∀ fuel, Mixture.MolarMass (fuel + 1) { mixZ with M := some 1 } =
      .error .typeError := by
    intro fuel
    have hstep : Mixture.MolarMass (fuel + 1) { mixZ with M := some 1 } =
        match Mixture.MolarFractions (fuel + 1) { mixZ with M := some 1 } with
        | .error e => .error e
        | .ok z =>
          match z[0]? with
          | none => .error .indexError
          | some _ => .error .typeError := rfl
    rw [hstep,
      molarFractions_stored fuel { mixZ with M := some 1 } [1/2, 1/2] rfl]
    rfl
  refine ⟨fun fuel => rfl, rfl, ?_, ?_, fun fuel => rfl, ?_, ?_⟩
  · intro fuel
    have hstep : Mixture.Mass (fuel + 1) { mixZ with N := some 2 } =
        match Mixture.MolarMass (fuel + 1) { mixZ with N := some 2 } with
        | .error e => .error e
        | .ok mm => .ok (2 * mm) := rfl
    rw [hstep, hmmN fuel]
  · intro fuel
    have hstep : Mixture.Moles (fuel + 1) { mixZ with M := some 1 } =
        match Mixture.MolarMass (fuel + 1) { mixZ with M := some 1 } with
        | .error e => .error e
        | .ok mm => pyDivQ 1 mm := rfl
    rw [hstep, hmmM fuel]
  · have hstep : Mixture.Volume { mixZ with N := some 2 } =
        pyDivQ (2 * Rgas * 298.15) 101325 := rfl
    rw [hstep, pyDivQ, if_neg (by norm_num)]
  · intro fuel
    have hstep : Mixture.Moles fuel { mixZ with V := some 1 } =
        pyDivQ (101325 * 1) (Rgas * 298.15) := rfl
    rw [hstep, pyDivQ, if_neg (by norm_num [Rgas])]

/-- Evaluation of the Density accumulation loop on a suffix of the component
list: it adds Σ MassFractions[i] / Density0_i over the remaining indices. -/
theorem densityLoop_eq (w : List ℚ) (T : ℚ) (cs : List Substance)
    (ds : List ℚ) (hds : cs.map (fun c => c.Density0) = ds.map some)
    (hnz : ∀ d ∈ ds, d ≠ 0) (hlen : w.length = cs.length) :
    ∀ (suf : List Substance) (j : Nat) (acc : ℚ), cs.drop j = suf →
      densityLoop w T suf j acc =
        .ok (acc +
          (List.zipWith (fun a b => a / b) (w.drop j) (ds.drop j)).sum) := by
  have hlds : cs.length = ds.length := by
    have := congrArg List.length hds
    simpa using this
  intro suf
  induction suf with
  | nil =>
    intro j acc hdrop
    have hdds : ds.drop j = [] := by
      have : cs.length ≤ j := by
        by_contra hlt
        rw [List.drop_eq_getElem_cons (Nat.lt_of_not_le hlt)] at hdrop
        exact List.noConfusion hdrop
      exact List.drop_eq_nil_of_le (hlds ▸ this)
    rw [hdds]
    simp [densityLoop]
  | cons c rest ih =>
    intro j acc hdrop
    have hj : j < cs.length := by
      by_contra hge
      rw [List.drop_eq_nil_of_le (Nat.le_of_not_lt hge)] at hdrop
      exact List.noConfusion hdrop
    have hjw : j < w.length := hlen ▸ hj
    have hjd : j < ds.length := hlds ▸ hj
    have hcons : cs.drop j = cs[j] :: cs.drop (j + 1) :=
      List.drop_eq_getElem_cons hj
    have hc : cs[j] = c := by
      rw [hdrop] at hcons; exact (List.cons.inj hcons.symm).1
    have hrest : cs.drop (j + 1) = rest := by
      rw [hdrop] at hcons; exact (List.cons.inj hcons.symm).2
    have hd0 : c.Density0 = some ds[j] := by
      have h1 : (cs.map (fun c => c.Density0))[j]? = (ds.map some)[j]? := by
        rw [hds]
      rw [List.getElem?_map, List.getElem?_map, List.getElem?_eq_getElem hj,
        List.getElem?_eq_getElem hjd, hc] at h1
      simpa using h1
    have hdnz : ds[j] ≠ 0 := hnz ds[j] (List.getElem_mem hjd)
    have hwcons : w.drop j = w[j] :: w.drop (j + 1) :=
      List.drop_eq_getElem_cons hjw
    have hdcons : ds.drop j = ds[j] :: ds.drop (j + 1) :=
      List.drop_eq_getElem_cons hjd
    simp only [densityLoop, pyIdx, List.getElem?_eq_getElem hjw,
      Substance.Density, hd0, pyDivOpt, if_neg hdnz]
    rw [ih (j + 1) (acc + w[j] / ds[j]) hrest, hwcons, hdcons,
      List.zipWith_cons_cons, List.sum_cons, ← add_assoc]

/-- Evaluation of the Viscosity accumulation loop on a suffix of the component
list: it multiplies acc by Π Viscosity0_i ^ MassFractions[i] over the
remaining indices. -/
theorem viscosityLoop_eq (w : List ℚ) (T : ℚ) (cs : List Substance)
    (mus : List ℚ) (hmus : cs.map (fun c => c.Viscosity0) = mus.map some)
    (hlen : w.length = cs.length) :
    ∀ (suf : List Substance) (j : Nat) (acc : ℝ), cs.drop j = suf →
      viscosityLoop w T suf j acc =
        .ok (acc *
          (List.zipWith (fun (a mu : ℚ) => (mu : ℝ) ^ (a : ℝ))
            (w.drop j) (mus.drop j)).prod) := by
  have hlds : cs.length = mus.length := by
    have := congrArg List.length hmus
    simpa using this
  intro suf
  induction suf with
  | nil =>
    intro j acc hdrop
    have hdds : mus.drop j = [] := by
      have : cs.length ≤ j := by
        by_contra hlt
        rw [List.drop_eq_getElem_cons (Nat.lt_of_not_le hlt)] at hdrop
        exact List.noConfusion hdrop
      exact List.drop_eq_nil_of_le (hlds ▸ this)
    rw [hdds]
    simp [viscosityLoop]
  | cons c rest ih =>
    intro j acc hdrop
    have hj : j < cs.length := by
      by_contra hge
      rw [List.drop_eq_nil_of_le (Nat.le_of_not_lt hge)] at hdrop
      exact List.noConfusion hdrop
    have hjw : j < w.length := hlen ▸ hj
    have hjd : j < mus.length := hlds ▸ hj
    have hcons : cs.drop j = cs[j] :: cs.drop (j + 1) :=
      List.drop_eq_getElem_cons hj
    have hc : cs[j] = c := by
      rw [hdrop] at hcons; exact (List.cons.inj hcons.symm).1
    have hrest : cs.drop (j + 1) = rest := by
      rw [hdrop] at hcons; exact (List.cons.inj hcons.symm).2
    have hd0 : c.Viscosity0 = some mus[j] := by
      have h1 : (cs.map (fun c => c.Viscosity0))[j]? = (mus.map some)[j]? := by
        rw [hmus]
      rw [List.getElem?_map, List.getElem?_map, List.getElem?_eq_getElem hj,
        List.getElem?_eq_getElem hjd, hc] at h1
      simpa using h1
    have hwcons : w.drop j = w[j] :: w.drop (j + 1) :=
      List.drop_eq_getElem_cons hjw
    have hdcons : mus.drop j = mus[j] :: mus.drop (j + 1) :=
      List.drop_eq_getElem_cons hjd
    simp only [viscosityLoop, pyIdx, List.getElem?_eq_getElem hjw,
      Substance.Viscosity, hd0]
    rw [ih (j + 1) (acc * (mus[j] : ℝ) ^ (w[j] : ℝ)) hrest, hwcons, hdcons,
      List.zipWith_cons_cons, List.prod_cons, ← mul_assoc]

/-- Evaluation of the SpecificHeat accumulation loop on a suffix of the
component list: it adds Σ MassFractions[i] * SpecificHeat0_i over the
remaining indices. -/
theorem specificHeatLoop_eq (w : List ℚ) (T : ℚ) (cs : List Substance)
    (cps : List ℚ) (hcps : cs.map (fun c => c.SpecificHeat0) = cps.map some)
    (hlen : w.length = cs.length) :
    ∀ (suf : List Substance) (j : Nat) (acc : ℚ), cs.drop j = suf →
      specificHeatLoop w T suf j acc =
        .ok (acc +
          (List.zipWith (fun a b => a * b) (w.drop j) (cps.drop j)).sum) := by
  have hlds : cs.length = cps.length := by
    have := congrArg List.length hcps
    simpa using this
  intro suf
  induction suf with
  | nil =>
    intro j acc hdrop
    have hdds : cps.drop j = [] := by
      have : cs.length ≤ j := by
        by_contra hlt
        rw [List.drop_eq_getElem_cons (Nat.lt_of_not_le hlt)] at hdrop
        exact List.noConfusion hdrop
      exact List.drop_eq_nil_of_le (hlds ▸ this)
    rw [hdds]
    simp [specificHeatLoop]
  | cons c rest ih =>
    intro j acc hdrop
    have hj : j < cs.length := by
      by_contra hge
      rw [List.drop_eq_nil_of_le (Nat.le_of_not_lt hge)] at hdrop
      exact List.noConfusion hdrop
    have hjw : j < w.length := hlen ▸ hj
    have hjd : j < cps.length := hlds ▸ hj
    have hcons : cs.drop j = cs[j] :: cs.drop (j + 1) :=
      List.drop_eq_getElem_cons hj
    have hc : cs[j] = c := by
      rw [hdrop] at hcons; exact (List.cons.inj hcons.symm).1
    have hrest : cs.drop (j + 1) = rest := by
      rw [hdrop] at hcons; exact (List.cons.inj hcons.symm).2
    have hd0 : c.SpecificHeat0 = some cps[j] := by
      have h1 : (cs.map (fun c => c.SpecificHeat0))[j]? = (cps.map some)[j]? := by
        rw [hcps]
      rw [List.getElem?_map, List.getElem?_map, List.getElem?_eq_getElem hj,
        List.getElem?_eq_getElem hjd, hc] at h1
      simpa using h1
    have hwcons : w.drop j = w[j] :: w.drop (j + 1) :=
      List.drop_eq_getElem_cons hjw
    have hdcons : cps.drop j = cps[j] :: cps.drop (j + 1) :=
      List.drop_eq_getElem_cons hjd
    simp only [specificHeatLoop, pyIdx, List.getElem?_eq_getElem hjw,
      Substance.SpecificHeat, hd0, pyMulOpt]
    rw [ih (j + 1) (acc + w[j] * cps[j]) hrest, hwcons, hdcons,
      List.zipWith_cons_cons, List.sum_cons, ← add_assoc]

/-- Density(T) evaluates to the harmonic-style mixing rule on a mixture with
stored mass fractions. -/
theorem density_eval (f : Nat) (m : Mixture) (w ds : List ℚ) (T : ℚ)
    (hw : m.wi = some w)
    (hds : m.Components.map (fun c => c.Density0) = ds.map some)
    (hnz : ∀ d ∈ ds, d ≠ 0) (hlen : w.length = m.Components.length)
    (hne : m.Components ≠ [])
    (hsum : (List.zipWith (fun a b => a / b) w ds).sum ≠ 0) :
    Mixture.Density (f + 1) m T =
      .ok (1 / (List.zipWith (fun a b => a / b) w ds).sum) := by
  cases hcs : m.Components with
  | nil => exact absurd hcs hne
  | cons c cs =>
    have hds' : (c :: cs).map (fun c => c.Density0) = ds.map some :=
      hcs ▸ hds
    have hlen' : w.length = (c :: cs).length := hcs ▸ hlen
    have hloop := densityLoop_eq w T (c :: cs) ds hds' hnz hlen' (c :: cs) 0 0
      rfl
    rw [List.drop_zero, List.drop_zero, zero_add] at hloop
    simp only [Mixture.Density, hcs, massFractions_stored f m w hw, hloop]
    rw [pyDivQ, if_neg hsum]

/-- Viscosity(T) evaluates to the logarithmic mixing rule on a mixture with
stored mass fractions. -/
theorem viscosity_eval (f : Nat) (m : Mixture) (w mus : List ℚ) (T : ℚ)
    (hw : m.wi = some w)
    (hmus : m.Components.map (fun c => c.Viscosity0) = mus.map some)
    (hlen : w.length = m.Components.length)
    (hne : m.Components ≠ []) :
    Mixture.Viscosity (f + 1) m T =
      .ok ((List.zipWith (fun (a mu : ℚ) => (mu : ℝ) ^ (a : ℝ)) w mus).prod) := by
  cases hcs : m.Components with
  | nil => exact absurd hcs hne
  | cons c cs =>
    have hmus' : (c :: cs).map (fun c => c.Viscosity0) = mus.map some :=
      hcs ▸ hmus
    have hlen' : w.length = (c :: cs).length := hcs ▸ hlen
    have hloop := viscosityLoop_eq w T (c :: cs) mus hmus' hlen' (c :: cs) 0 1
      rfl
    rw [List.drop_zero, List.drop_zero, one_mul] at hloop
    simp only [Mixture.Viscosity, hcs, massFractions_stored f m w hw, hloop]

/-- SpecificHeat(T) evaluates to the linear mass-weighted mixing rule on a
mixture with stored mass fractions. -/
theorem specificHeat_eval (f : Nat) (m : Mixture) (w cps : List ℚ) (T : ℚ)
    (hw : m.wi = some w)
    (hcps : m.Components.map (fun c => c.SpecificHeat0) = cps.map some)
    (hlen : w.length = m.Components.length)
    (hne : m.Components ≠ []) :
    Mixture.SpecificHeat (f + 1) m T =
      .ok ((List.zipWith (fun a b => a * b) w cps).sum) := by
  cases hcs : m.Components with
  | nil => exact absurd hcs hne
  | cons c cs =>
    have hcps' : (c :: cs).map (fun c => c.SpecificHeat0) = cps.map some :=
      hcs ▸ hcps
    have hlen' : w.length = (c :: cs).length := hcs ▸ hlen
    have hloop := specificHeatLoop_eq w T (c :: cs) cps hcps' hlen' (c :: cs)
      0 0 rfl
    rw [List.drop_zero, List.drop_zero, zero_add] at hloop
    simp only [Mixture.SpecificHeat, hcs, massFractions_stored f m w hw, hloop]

/-- C6: with stored mass fractions and reference properties set, the bulk
properties follow the three mixing rules — Density(T) is the reciprocal of
Σ(wi / rhoi), Viscosity(T) the product Π(mui ^ wi), SpecificHeat(T) the sum
Σ(wi * cpi) — and on a single-component mixture with fraction 1 each equals
the component's own value exactly. -/
theorem C6_mixing_rules (f : Nat) (m m1 : Mixture) (w ds mus cps : List ℚ)
    (T : ℚ) (c1 : Substance) (d mu cp : ℚ)
    (hw : m.wi = some w)
    (hds : m.Components.map (fun c => c.Density0) = ds.map some)
    (hdnz : ∀ x ∈ ds, x ≠ 0)
    (hmus : m.Components.map (fun c => c.Viscosity0) = mus.map some)
    (hcps : m.Components.map (fun c => c.SpecificHeat0) = cps.map some)
    (hlen : w.length = m.Components.length)
    (hne : m.Components ≠ [])
    (hsum : (List.zipWith (fun a b => a / b) w ds).sum ≠ 0)
    (h1c : m1.Components = [c1]) (h1w : m1.wi = some [1])
    (h1d : c1.Density0 = some d) (h1dnz : d ≠ 0)
    (h1mu : c1.Viscosity0 = some mu) (h1cp : c1.SpecificHeat0 = some cp) :
    Mixture.Density (f + 1) m T =
      .ok (1 / (List.zipWith (fun a b => a / b) w ds).sum) ∧
    Mixture.Viscosity (f + 1) m T =
      .ok ((List.zipWith (fun (a x : ℚ) => (x : ℝ) ^ (a : ℝ)) w mus).prod) ∧
    Mixture.SpecificHeat (f + 1) m T =
      .ok ((List.zipWith (fun a b => a * b) w cps).sum) ∧
    Mixture.Density (f + 1) m1 T = .ok d ∧
    Mixture.Viscosity (f + 1) m1 T = .ok (mu : ℝ) ∧
    Mixture.SpecificHeat (f + 1) m1 T = .ok cp := by
  have h1ds : m1.Components.map (fun c => c.Density0) = [d].map some := by
    rw [h1c]; simp [h1d]
  have h1mus : m1.Components.map (fun c => c.Viscosity0) = [mu].map some := by
    rw [h1c]; simp [h1mu]
  have h1cps : m1.Components.map (fun c => c.SpecificHeat0) =
      [cp].map some := by
    rw [h1c]; simp [h1cp]
  have h1len : ([1] : List ℚ).length = m1.Components.length := by
    rw [h1c]
    rfl
  have h1ne : m1.Components ≠ [] := by rw [h1c]; simp
  have h1sum : (List.zipWith (fun a b => a / b) [(1 : ℚ)] [d]).sum ≠ 0 := by
    simpa using one_div_ne_zero h1dnz
  refine ⟨density_eval f m w ds T hw hds hdnz hlen hne hsum,
    viscosity_eval f m w mus T hw hmus hlen hne,
    specificHeat_eval f m w cps T hw hcps hlen hne, ?_, ?_, ?_⟩
  · rw [density_eval f m1 [1] [d] T h1w h1ds
      (by intro x hx; rw [List.mem_singleton] at hx; rw [hx]; exact h1dnz)
      h1len h1ne h1sum]
    norm_num
  · rw [viscosity_eval f m1 [1] [mu] T h1w h1mus h1len h1ne]
    norm_num [Real.rpow_one]
  · rw [specificHeat_eval f m1 [1] [cp] T h1w h1cps h1len h1ne]
    norm_num

/-- Witness for C6 on a concrete two-component mixture and a concrete
single-component mixture. -/
theorem C6_mixing_rules_witness :
    mixW.wi = some [1/2, 1/2] ∧ mixOne.wi = some [1] ∧
    (Mixture.Density 1 mixW 298.15 =
      .ok (1 / (List.zipWith (fun a b => a / b) [1/2, 1/2] [1000, 789]).sum) ∧
    Mixture.Viscosity 1 mixW 298.15 =
      .ok ((List.zipWith (fun (a x : ℚ) => (x : ℝ) ^ (a : ℝ))
        [1/2, 1/2] [1/1000, 3/2500]).prod) ∧
    Mixture.SpecificHeat 1 mixW 298.15 =
      .ok ((List.zipWith (fun a b => a * b) [1/2, 1/2] [4186, 2440]).sum) ∧
    Mixture.Density 1 mixOne 298.15 = .ok 1000 ∧
    Mixture.Viscosity 1 mixOne 298.15 = .ok ((1/1000 : ℚ) : ℝ) ∧
    Mixture.SpecificHeat 1 mixOne 298.15 = .ok 4186) :=
  ⟨rfl, rfl,
    C6_mixing_rules 0 mixW mixOne [1/2, 1/2] [1000, 789] [1/1000, 3/2500]
      [4186, 2440] 298.15 water 1000 (1/1000) 4186
      rfl rfl (by norm_num) rfl rfl rfl (by simp [mixW, mkMixture])
      (by norm_num) rfl rfl rfl (by norm_num) rfl rfl⟩

/-- A comprehension over fractions with a successfully-read flow returns the
elementwise products. -/
theorem compFlows_ok (F : ℚ) : ∀ l : List ℚ,
    compFlows (.ok F) l = .ok (l.map (fun x => x * F))
  | [] => by simp [compFlows]
  | x :: rest => by
    rw [List.map_cons]
    simp only [compFlows, compFlows_ok F rest]

/-- Multiplying every element by a constant multiplies the sum. -/
theorem sum_map_mul : ∀ (l : List ℚ) (F : ℚ),
    (l.map (fun x => x * F)).sum = l.sum * F
  | [], F => by simp
  | a :: l', F => by
    rw [List.map_cons, List.sum_cons, List.sum_cons, sum_map_mul l' F,
      add_mul]

/-- C7: MassFlow and MolarFlow are mutually derived through the snapshot
MolarMass — with only Nf stored MassFlow = MolarFlow * MolarMass, with Nf
unset MolarFlow = MassFlow / MolarMass, stored Mf takes precedence over a
stored Nf, and the concrete stream with MassFlow 10 and MolarMass 1/50 has
MolarFlow exactly 500. -/
theorem C7_flow_pair (s t u : Stream) (n mf nf : ℚ)
    (hs1 : s.Mf = none) (hs2 : s.Nf = some n)
    (ht1 : t.Nf = none) (ht2 : t.Mf = some mf) (ht3 : t.MolarMass ≠ 0)
    (hu1 : u.Mf = some mf) (_hu2 : u.Nf = some nf) :
    (s.MassFlow = .ok (n * s.MolarMass) ∧ s.MolarFlow = .ok n) ∧
    t.MolarFlow = .ok (mf / t.MolarMass) ∧
    u.MassFlow = .ok mf ∧
    streamMf.MolarFlow = .ok 500 := by
  refine ⟨⟨?_, ?_⟩, ?_, ?_, ?_⟩
  · simp [Stream.MassFlow, hs1, hs2]
  · simp [Stream.MolarFlow, hs2]
  · simp only [Stream.MolarFlow, Stream.MassFlow, ht1, ht2]
    rw [pyDivQ, if_neg ht3]
  · simp [Stream.MassFlow, hu1]
  · have hstep : streamMf.MolarFlow = pyDivQ 10 (1/50) := rfl
    rw [hstep, pyDivQ, if_neg (by norm_num)]
    norm_num

/-- Witness for C7 on concrete stream states. -/
theorem C7_flow_pair_witness :
    streamNf.Mf = none ∧ streamNf.Nf = some 500 ∧
    ((streamNf.MassFlow = .ok (500 * streamNf.MolarMass) ∧
      streamNf.MolarFlow = .ok 500) ∧
    streamMf.MolarFlow = .ok (10 / streamMf.MolarMass) ∧
    streamBoth.MassFlow = .ok 10 ∧
    streamMf.MolarFlow = .ok 500) :=
  ⟨rfl, rfl,
    C7_flow_pair streamNf streamMf streamBoth 500 10 7
      rfl rfl rfl rfl (show (1/50 : ℚ) ≠ 0 by norm_num) rfl rfl⟩

/-- C8: the per-component flow lists are the elementwise products of the
fraction lists with the scalar flows — MassFlows by mass fraction, MolarFlows
and VolumeFlows both by MOLE fraction — and when the relevant fraction list
sums to 1 each per-component list sums to the corresponding scalar flow. -/
theorem C8_component_flows (s : Stream) (F Vdot Ndot : ℚ)
    (hF : s.MassFlow = .ok F) (hV : s.VolumeFlow = .ok Vdot)
    (hN : s.MolarFlow = .ok Ndot) :
    s.MassFlows = .ok (s.MassFractions.map (fun x => x * F)) ∧
    s.VolumeFlows = .ok (s.MolarFractions.map (fun x => x * Vdot)) ∧
    s.MolarFlows = .ok (s.MolarFractions.map (fun x => x * Ndot)) ∧
    (s.MassFractions.sum = 1 →
      (s.MassFractions.map (fun x => x * F)).sum = F) ∧
    (s.MolarFractions.sum = 1 →
      (s.MolarFractions.map (fun x => x * Vdot)).sum = Vdot ∧
      (s.MolarFractions.map (fun x => x * Ndot)).sum = Ndot) := by
  refine ⟨?_, ?_, ?_, ?_, ?_⟩
  · rw [Stream.MassFlows, hF, compFlows_ok]
  · rw [Stream.VolumeFlows, hV, compFlows_ok]
  · rw [Stream.MolarFlows, hN, compFlows_ok]
  · intro hsum
    rw [sum_map_mul, hsum, one_mul]
  · intro hsum
    rw [sum_map_mul, sum_map_mul, hsum, one_mul, one_mul]
    exact ⟨rfl, rfl⟩

/-- Witness for C8 on a concrete stream with Mf and Vf stored. -/
theorem C8_component_flows_witness :
    streamMfVf.MassFlow = .ok 10 ∧ streamMfVf.VolumeFlow = .ok (1/100) ∧
    streamMfVf.MolarFlow = .ok 400 ∧
    (streamMfVf.MassFlows =
      .ok (streamMfVf.MassFractions.map (fun x => x * 10)) ∧
    streamMfVf.VolumeFlows =
      .ok (streamMfVf.MolarFractions.map (fun x => x * (1/100))) ∧
    streamMfVf.MolarFlows =
      .ok (streamMfVf.MolarFractions.map (fun x => x * 400)) ∧
    (streamMfVf.MassFractions.sum = 1 →
      (streamMfVf.MassFractions.map (fun x => x * 10)).sum = 10) ∧
    (streamMfVf.MolarFractions.sum = 1 →
      (streamMfVf.MolarFractions.map (fun x => x * (1/100))).sum = 1/100 ∧
      (streamMfVf.MolarFractions.map (fun x => x * 400)).sum = 400)) := by
  have hN : streamMfVf.MolarFlow = .ok 400 := by
    have hstep : streamMfVf.MolarFlow = pyDivQ 10 (1/40) := rfl
    rw [hstep, pyDivQ, if_neg (by norm_num)]
    norm_num
  exact ⟨rfl, rfl, hN, C8_component_flows streamMfVf 10 (1/100) 400 rfl rfl hN⟩

/-- C10: with Vf and Vfo both unset, VolumeFlow divides the RAW stored field
Mf by Density rather than the derived MassFlow, so a stream whose only stored
flow basis is Nf raises TypeError on VolumeFlow even though its MassFlow is
well defined. -/
theorem C10_volumeflow_raw_mf (s : Stream) (n : ℚ)
    (h1 : s.Vf = none) (h2 : s.Vfo = none) (h3 : s.Mf = none)
    (h4 : s.Nf = some n) :
    s.VolumeFlow = .error .typeError ∧ s.MassFlow = .ok (n * s.MolarMass) := by
  constructor
  · simp [Stream.VolumeFlow, h1, h2, h3]
  · simp [Stream.MassFlow, h3, h4]

/-- Witness for C10 on a concrete stream whose only flow basis is Nf. -/
theorem C10_volumeflow_raw_mf_witness :
    streamNf.Vf = none ∧ streamNf.Vfo = none ∧ streamNf.Mf = none ∧
    streamNf.Nf = some 500 ∧
    (streamNf.VolumeFlow = .error .typeError ∧
      streamNf.MassFlow = .ok (500 * streamNf.MolarMass)) :=
  ⟨rfl, rfl, rfl, rfl,
    C10_volumeflow_raw_mf streamNf 500 rfl rfl rfl rfl⟩

/-- C9 (code bug): Stream.__init__ eagerly evaluates the mixture's derived
properties to snapshot them, but the fourth assignment reads
mixture.MolarMass, which always raises TypeError on a nonempty mixture (it
multiplies a fraction by a dict key string), so construction never completes
and no Stream ever receives the copied intensive properties the claim talks
about; on the example single-component mixture the density, viscosity and
specific-heat snapshots succeed and construction dies exactly at MolarMass. -/
theorem C9_stream_snapshot_unreachable :
    ∀ f, mkStream (f + 2) mixOne = .error .typeError := by
  intro f
  show mkStream (f + 1 + 1) mixOne = .error .typeError
  have hne : mixOne.Components ≠ [] := by simp [mixOne, mkMixture]
  have hD : Mixture.Density (f + 1 + 1) mixOne mixOne.Temperature =
      .ok (1 / (List.zipWith (fun a b => a / b) [1] [1000]).sum) :=
    density_eval (f + 1) mixOne [1] [1000] mixOne.Temperature rfl rfl
      (by norm_num) rfl hne (by norm_num)
  have hV : Mixture.Viscosity (f + 1 + 1) mixOne mixOne.Temperature =
      .ok ((List.zipWith (fun (a x : ℚ) => (x : ℝ) ^ (a : ℝ))
        [1] [1/1000]).prod) :=
    viscosity_eval (f + 1) mixOne [1] [1/1000] mixOne.Temperature rfl rfl rfl
      hne
  have hC : Mixture.SpecificHeat (f + 1 + 1) mixOne mixOne.Temperature =
      .ok ((List.zipWith (fun a b => a * b) [1] [4186]).sum) :=
    specificHeat_eval (f + 1) mixOne [1] [4186] mixOne.Temperature rfl rfl rfl
      hne
  have hz : Mixture.MolarFractions (f + 1 + 1) mixOne =
      .ok (List.zipWith
        (fun a b => a / b / (List.zipWith (fun a b => a / b) [1] [9/500]).sum)
        [1] [9/500]) :=
    molarFractions_of_wi f mixOne [1] [9/500] rfl rfl rfl (by decide) rfl rfl
      (by norm_num) (by norm_num)
  have hM : Mixture.MolarMass (f + 1 + 1) mixOne = .error .typeError := by
    have hstep : Mixture.MolarMass (f + 1 + 1) mixOne =
        match Mixture.MolarFractions (f + 1 + 1) mixOne with
        | .error e => .error e
        | .ok z =>
          match z[0]? with
          | none => .error .indexError
          | some _ => .error .typeError := rfl
    rw [hstep, hz]
    rfl
  simp only [mkStream, hD, hV, hC, hM]

end Chemical
